import Mathlib

/-!
Verification of the Locus bookmarks-viewer popup (`src/BookmarksViewer.tsx`,
final revision of the file).  The embedding models:

* the `BookmarkNode` record tree delivered by the host bookmark provider;
* `flattenBookmarks`, the pre-order tree flattener;
* `filterBookmarks`, the matcher (the external Fuse fuzzy-search capability
  is a parameter of type `FuseFn`, since it is a third-party library, not
  code of this repository; the options object passed to its constructor is
  embedded verbatim as `fuseOptions`);
* `isInternalUrl` and the Enter-key confirm handler as a timed trace of
  browser side effects (`handleEnterTrace`);
* the component's interactive state (`ViewerState`) and its event step
  function (`step`), covering query edits, the one-shot bookmark load,
  keyboard navigation, the copy click, the 700 ms copy-icon reset timer,
  and pointer hover.  The rendered list (`RenderBookmarks`) attaches an
  `onClick` handler on the copy icon only and no pointer-hover listener,
  so a hover event leaves the component state unchanged.
* the `useEffect` with dependency array `[search, filtered.length]` that
  resets `highlightedIdx` to `0`, as `applyResetEffect`: after each event
  the new state's `(search, filtered.length)` pair is compared with the
  pre-event one and, when it differs, the highlight index is reset.

JavaScript string truthiness (`if (node.url)`, `if (!searchText)`,
`if (!url)`) is modelled explicitly: `none` and `some ""` are both falsy.
-/

/-- The `BookmarkNode` interface: `id`, `title`, optional `url`, optional
`children`.  A nested inductive because the record is recursive. -/
inductive BookmarkNode : Type where
  | mk : String → String → Option String → Option (List BookmarkNode) → BookmarkNode

def BookmarkNode.id : BookmarkNode → String
  | .mk i _ _ _ => i

def BookmarkNode.title : BookmarkNode → String
  | .mk _ t _ _ => t

def BookmarkNode.url : BookmarkNode → Option String
  | .mk _ _ u _ => u

def BookmarkNode.children : BookmarkNode → Option (List BookmarkNode)
  | .mk _ _ _ c => c

/-- JavaScript truthiness of an optional string: `undefined` and `""` are
falsy, every other string is truthy. -/
def truthyStr : Option String → Bool
  | none => false
  | some s => s ≠ ""

/-- `flattenBookmarks` from the source: for each node in order, push the node
itself if `node.url` is truthy, then append the flattening of its children
when present, then continue with the next sibling. -/
def flattenBookmarks : List BookmarkNode → List BookmarkNode
  | [] => []
  | BookmarkNode.mk i t u c :: rest =>
      (if truthyStr u then [BookmarkNode.mk i t u c] else [])
        ++ (match c with
            | some cs => flattenBookmarks cs
            | none => [])
        ++ flattenBookmarks rest

/-- Spec-side definition: the pre-order listing of every node of the forest
(each parent before its children, siblings in original order). -/
def preorderNodes : List BookmarkNode → List BookmarkNode
  | [] => []
  | BookmarkNode.mk i t u c :: rest =>
      BookmarkNode.mk i t u c
        :: ((match c with
             | some cs => preorderNodes cs
             | none => [])
            ++ preorderNodes rest)

/-! ### The matcher (`filterBookmarks`) -/

/-- One entry of the `keys` option passed to the Fuse constructor. -/
structure FuseKeyWeight where
  name : String
  weight : ℚ

/-- The options object passed to the Fuse constructor in `filterBookmarks`. -/
structure FuseOptions where
  keys : List FuseKeyWeight
  threshold : ℚ
  ignoreLocation : Bool
  minMatchCharLength : Nat

/-- The literal options the source builds:
`keys: [{title, 0.7}, {url, 0.3}], threshold: 0.4, ignoreLocation: true,
minMatchCharLength: 2`. -/
def fuseOptions : FuseOptions :=
  { keys := [{ name := "title", weight := 7/10 }, { name := "url", weight := 3/10 }],
    threshold := 4/10,
    ignoreLocation := true,
    minMatchCharLength := 2 }

/-- The external fuzzy-search capability: given the indexed collection, the
constructor options and a query, it returns the ranked matched items
(`fuse.search(q).map(r => r.item)`).  It is third-party library code, so it
is a parameter of the embedding. -/
def FuseFn : Type :=
  List BookmarkNode → FuseOptions → String → List BookmarkNode

/-- `filterBookmarks` from the source: an empty (falsy) query returns the
input unchanged; otherwise a fresh Fuse instance is built over `nodes` with
`fuseOptions` and searched. -/
def filterBookmarks (fuseSearch : FuseFn) (nodes : List BookmarkNode)
    (searchText : String) : List BookmarkNode :=
  if searchText = "" then nodes
  else fuseSearch nodes fuseOptions searchText

/-! ### Internal URLs and the Enter-key confirm handler -/

/-- JavaScript `String.prototype.startsWith`, modelled over the character
lists of the two strings so that it is kernel-computable. -/
def jsStartsWith (s pre : String) : Bool :=
  pre.data.isPrefixOf s.data

/-- `isInternalUrl` from the source:
`url?.startsWith('chrome://') || url?.startsWith('edge://')`; an absent
`url` yields `undefined || undefined`, which is falsy. -/
def isInternalUrl : Option String → Bool
  | none => false
  | some u => jsStartsWith u "chrome://" || jsStartsWith u "edge://"

/-- Browser side effects the confirm handler can request. -/
inductive BrowserAction : Type where
  | clipboardWrite : String → BrowserAction
  | setCopiedIdx : Option Nat → BrowserAction
  | requestBlankTab : BrowserAction
  | openUrl : String → BrowserAction
deriving DecidableEq

/-- Does the action open a given address directly (`window.open(url, '_blank')`)? -/
def isOpenUrl : BrowserAction → Bool
  | .openUrl _ => true
  | _ => false

/-- Is the action a clipboard write? -/
def isClipboardWrite : BrowserAction → Bool
  | .clipboardWrite _ => true
  | _ => false

/-- The side effects of `doCopy(url, idx)`, each paired with the delay (ms
after the triggering input) at which it fires: the clipboard write and the
copied-icon flag happen immediately, the flag is cleared after 700 ms. -/
def doCopyTrace (url : String) (idx : Nat) : List (Nat × BrowserAction) :=
  [(0, .clipboardWrite url), (0, .setCopiedIdx (some idx)), (700, .setCopiedIdx none)]

/-- The side effects requested by the Enter branch of `handleKeyDown`, each
paired with its firing delay.  Mirrors the source: look up
`filtered[highlightedIdx]`, return if absent; return if its `url` is falsy;
for an internal URL run `doCopy` and schedule a blank-tab request
(`chrome.tabs.create({})`, or the `window.open('','_blank')` fallback)
120 ms later; otherwise `window.open(url, '_blank')` immediately. -/
def handleEnterTrace (filtered : List BookmarkNode) (highlightedIdx : Nat) :
    List (Nat × BrowserAction) :=
  match filtered[highlightedIdx]? with
  | none => []
  | some node =>
      match node.url with
      | none => []
      | some url =>
          if url = "" then []
          else if isInternalUrl (some url) then
            doCopyTrace url highlightedIdx ++ [(120, .requestBlankTab)]
          else
            [(0, .openUrl url)]

/-! ### Component state and events -/

/-- Keyboard inputs distinguished by `handleKeyDown`. -/
inductive Key : Type where
  | arrowDown
  | arrowUp
  | enter
  | other
deriving DecidableEq

/-- The React state of the `BookmarksViewer` component. -/
structure ViewerState where
  loading : Bool
  bookmarks : List BookmarkNode
  search : String
  highlightedIdx : Nat
  copiedIdx : Option Nat

/-- Initial state: `loading = true`, no bookmarks, empty query, highlight `0`,
no copied icon. -/
def initState : ViewerState :=
  { loading := true, bookmarks := [], search := "", highlightedIdx := 0, copiedIdx := none }

/-- `flatBookmarks` from the source:
`bookmarks.length > 0 && bookmarks[0].children ? flattenBookmarks(bookmarks[0].children) : []`. -/
def flatBookmarks (s : ViewerState) : List BookmarkNode :=
  match s.bookmarks with
  | [] => []
  | root :: _ =>
      match root.children with
      | some cs => flattenBookmarks cs
      | none => []

/-- `filtered` from the source: `filterBookmarks(flatBookmarks, search)`. -/
def filteredOf (f : FuseFn) (s : ViewerState) : List BookmarkNode :=
  filterBookmarks f (flatBookmarks s) s.search

/-- The state updates of `handleKeyDown` (final revision): no-op when the
filtered list is empty; ArrowDown maps the index to `(idx + 1) % length`;
ArrowUp to `(idx - 1 + length) % length` (JavaScript arithmetic, hence the
`Int` detour); Enter leaves the index alone and, on an internal URL, `doCopy`
sets `copiedIdx` to the current index (its 700 ms reset is the separate
`Event.copyTimerFire`). -/
def handleKeyDownState (f : FuseFn) (k : Key) (s : ViewerState) : ViewerState :=
  let filtered := filteredOf f s
  if filtered.length = 0 then s
  else
    match k with
    | .arrowDown =>
        { s with highlightedIdx := (s.highlightedIdx + 1) % filtered.length }
    | .arrowUp =>
        { s with highlightedIdx :=
            (((s.highlightedIdx : Int) - 1 + (filtered.length : Int))
              % (filtered.length : Int)).toNat }
    | .enter =>
        match filtered[s.highlightedIdx]? with
        | none => s
        | some node =>
            match node.url with
            | none => s
            | some url =>
                if url = "" then s
                else if isInternalUrl (some url) then
                  { s with copiedIdx := some s.highlightedIdx }
                else s
    | .other => s

/-- The events the component reacts to. -/
inductive Event : Type where
  | queryEdit : String → Event
  | bookmarksLoaded : List BookmarkNode → Event
  | loadUnavailable : Event
  | keyDown : Key → Event
  | copyClick : String → Nat → Event
  | pointerHover : Nat → Event
  | copyTimerFire : Event

/-- The direct state change of each event, before the reset effect runs.
`queryEdit` is the input's `onChange`; `bookmarksLoaded` is the one-shot
`chrome.bookmarks.getTree` callback (it only ever fires while `loading`);
`loadUnavailable` is the branch taken when the bookmarks API is missing;
`copyClick` is the copy icon's `onClick` (`handleCopy` → `doCopy`);
`pointerHover` has no listener in `RenderBookmarks`, so it changes nothing;
`copyTimerFire` is `doCopy`'s 700 ms `setCopiedIdx(null)` timer. -/
def stepCore (f : FuseFn) (e : Event) (s : ViewerState) : ViewerState :=
  match e with
  | .queryEdit q => { s with search := q }
  | .bookmarksLoaded bs =>
      if s.loading then { s with bookmarks := bs, loading := false } else s
  | .loadUnavailable =>
      if s.loading then { s with loading := false } else s
  | .keyDown k => handleKeyDownState f k s
  | .copyClick _ i => { s with copiedIdx := some i }
  | .pointerHover _ => s
  | .copyTimerFire => { s with copiedIdx := none }

/-- The `useEffect(() => setHighlightedIdx(0), [search, filtered.length])`
reset: if the dependency pair changed relative to its pre-event value, the
highlight index is set to `0`. -/
def applyResetEffect (f : FuseFn) (oldSearch : String) (oldLen : Nat)
    (s : ViewerState) : ViewerState :=
  if s.search = oldSearch ∧ (filteredOf f s).length = oldLen then s
  else { s with highlightedIdx := 0 }

/-- One event step of the component: the event's direct state change followed
by the reset effect (with the dependency pair captured before the event). -/
def step (f : FuseFn) (e : Event) (s : ViewerState) : ViewerState :=
  applyResetEffect f s.search (filteredOf f s).length (stepCore f e s)

/-- Run the component from its initial state through a list of events. -/
def run (f : FuseFn) (evs : List Event) : ViewerState :=
  evs.foldl (fun s e => step f e s) initState

/-- The selection invariant of the spec: either the filtered sequence is
empty (no selection is possible) or the highlight index is in range. -/
def selectionInv (f : FuseFn) (s : ViewerState) : Prop :=
  filteredOf f s = [] ∨ s.highlightedIdx < (filteredOf f s).length

/-! ### Concrete sample data for witnesses and counterexamples -/

/-- A sample leaf bookmark. -/
def nodeA : BookmarkNode := .mk "1" "Alpha" (some "https://a.example") none

/-- A second sample leaf bookmark. -/
def nodeB : BookmarkNode := .mk "2" "Beta" (some "https://b.example") none

/-- A sample root node as returned by `chrome.bookmarks.getTree`. -/
def rootNode : BookmarkNode := .mk "0" "" none (some [nodeA, nodeB])

/-- A sample fuzzy-search capability that returns the whole collection. -/
def fuseAll : FuseFn := fun ns _ _ => ns

/-- A sample fuzzy-search capability that matches nothing. -/
def fuseNone : FuseFn := fun _ _ _ => []

/-- A loaded state with two flattened bookmarks, empty query, highlight `0`. -/
def loadedState : ViewerState :=
  { loading := false, bookmarks := [rootNode], search := "",
    highlightedIdx := 0, copiedIdx := none }

/-- The same loaded state with the highlight on the last entry (index `1`). -/
def loadedStateLast : ViewerState :=
  { loadedState with highlightedIdx := 1 }

/-! ### Helper lemmas -/

theorem flatten_eq_filter_preorder (ns : List BookmarkNode) :
    flattenBookmarks ns
      = (preorderNodes ns).filter (fun n => truthyStr n.url) := by
  induction ns using flattenBookmarks.induct with
  | case1 => simp [flattenBookmarks, preorderNodes]
  | case2 i t u c rest ih1 ih2 =>
      cases c with
      | none =>
          simp only [flattenBookmarks, preorderNodes, List.filter_cons,
            List.filter_append, ih2, BookmarkNode.url]
          cases h : truthyStr u <;> simp [h]
      | some cs =>
          simp only at ih1
          simp only [flattenBookmarks, preorderNodes, List.filter_cons,
            List.filter_append, ih1, ih2, BookmarkNode.url]
          cases h : truthyStr u <;> simp [h]

theorem filteredOf_congr (f : FuseFn) (s₁ s₂ : ViewerState)
    (hb : s₁.bookmarks = s₂.bookmarks) (hs : s₁.search = s₂.search) :
    filteredOf f s₁ = filteredOf f s₂ := by
  unfold filteredOf flatBookmarks
  rw [hb, hs]

theorem handleKeyDownState_search (f : FuseFn) (k : Key) (s : ViewerState) :
    (handleKeyDownState f k s).search = s.search := by
  unfold handleKeyDownState
  simp only
  repeat' split
  all_goals rfl

theorem handleKeyDownState_bookmarks (f : FuseFn) (k : Key) (s : ViewerState) :
    (handleKeyDownState f k s).bookmarks = s.bookmarks := by
  unfold handleKeyDownState
  simp only
  repeat' split
  all_goals rfl

theorem handleKeyDownState_loading (f : FuseFn) (k : Key) (s : ViewerState) :
    (handleKeyDownState f k s).loading = s.loading := by
  unfold handleKeyDownState
  simp only
  repeat' split
  all_goals rfl

theorem filteredOf_handleKeyDownState (f : FuseFn) (k : Key) (s : ViewerState) :
    filteredOf f (handleKeyDownState f k s) = filteredOf f s :=
  filteredOf_congr f _ s (handleKeyDownState_bookmarks f k s)
    (handleKeyDownState_search f k s)

theorem filterBookmarks_nil (f : FuseFn)
    (hf : ∀ ns opts q x, x ∈ f ns opts q → x ∈ ns) (q : String) :
    filterBookmarks f [] q = [] := by
  unfold filterBookmarks
  split
  · rfl
  · exact List.eq_nil_iff_forall_not_mem.mpr
      (fun x hx => (List.not_mem_nil x) (hf [] fuseOptions q x hx))

/-! ### Claim theorems -/

/-- C1: for every forest of `BookmarkNode`s, `flattenBookmarks` returns
exactly the nodes (at any depth) whose `url` is present and non-empty, in
pre-order (each parent before its children, siblings in original order),
with no node duplicated or reordered — i.e. it equals the filter of the
pre-order node listing by URL-truthiness — and the flattening of the empty
forest is the empty sequence. -/
theorem c1_flatten_preorder_filter (ns : List BookmarkNode) :
    flattenBookmarks ns = (preorderNodes ns).filter (fun n => truthyStr n.url)
    ∧ flattenBookmarks ([] : List BookmarkNode) = [] :=
  ⟨flatten_eq_filter_preorder ns, by simp [flattenBookmarks]⟩

/-- C4: the matcher applied with the empty query returns exactly the input
list, same elements in the same order, whatever the external fuzzy-search
capability does. -/
theorem c4_empty_query_identity (f : FuseFn) (nodes : List BookmarkNode) :
    filterBookmarks f nodes "" = nodes := by
  simp [filterBookmarks]

/-- C7: the matcher is deterministic — the source builds the Fuse instance
afresh from its arguments and the fixed options and reads no other state, so
for a fixed entry sequence and fixed query two invocations return the same
result list. -/
theorem c7_matcher_deterministic (f : FuseFn) (nodes : List BookmarkNode)
    (q : String) (r₁ r₂ : List BookmarkNode)
    (h₁ : r₁ = filterBookmarks f nodes q) (h₂ : r₂ = filterBookmarks f nodes q) :
    r₁ = r₂ :=
  h₁.trans h₂.symm

/-- Witness for C7 at a concrete input: two invocations of the matcher on
`[nodeA, nodeB]` with query `"ab"` yield the same list. -/
theorem c7_matcher_deterministic_witness :
    ([nodeA, nodeB] : List BookmarkNode) = [nodeA, nodeB] :=
  c7_matcher_deterministic fuseAll [nodeA, nodeB] "ab" [nodeA, nodeB] [nodeA, nodeB]
    (by simp [filterBookmarks, fuseAll]) (by simp [filterBookmarks, fuseAll])

/-- C9: provided the external fuzzy-search capability only returns items of
the collection it indexed (each at most as often as it occurs there), the
matcher's output is a sub-multiset of its input, and the matcher applied to
the empty list returns the empty list for any query. -/
theorem c9_matcher_submultiset (f : FuseFn)
    (hf : ∀ ns opts q, List.Subperm (f ns opts q) ns)
    (nodes : List BookmarkNode) (q : String) :
    List.Subperm (filterBookmarks f nodes q) nodes
    ∧ filterBookmarks f [] q = [] := by
  constructor
  · unfold filterBookmarks
    split
    · exact List.Subperm.refl _
    · exact hf nodes fuseOptions q
  · unfold filterBookmarks
    split
    · rfl
    · exact List.subperm_nil.mp (hf [] fuseOptions q)

/-- Witness for C9 at a concrete input: a capability returning nothing
satisfies the sub-multiset contract, and the conclusions hold at `[nodeA]`
with query `"xx"`. -/
theorem c9_matcher_submultiset_witness :
    List.Subperm (filterBookmarks fuseNone [nodeA] "xx") [nodeA]
    ∧ filterBookmarks fuseNone [] "xx" = [] :=
  c9_matcher_submultiset fuseNone (fun _ _ _ => List.nil_subperm) [nodeA] "xx"

/-- C3: when the selected entry's address begins with the reserved internal
scheme prefix, confirm (Enter) requests exactly the clipboard write of that
address immediately (delay `0`), the copied-icon updates, and the blank-tab
request after the fixed 120 ms delay — and no direct open of any address
appears in the trace. -/
theorem c3_internal_confirm (filtered : List BookmarkNode) (i : Nat)
    (node : BookmarkNode) (url : String)
    (hnode : filtered[i]? = some node) (hurl : node.url = some url)
    (hne : url ≠ "") (hint : isInternalUrl (some url) = true) :
    handleEnterTrace filtered i
        = [(0, BrowserAction.clipboardWrite url),
           (0, BrowserAction.setCopiedIdx (some i)),
           (700, BrowserAction.setCopiedIdx none),
           (120, BrowserAction.requestBlankTab)]
    ∧ (handleEnterTrace filtered i).all (fun a => !isOpenUrl a.2) = true := by
  have htrace : handleEnterTrace filtered i
      = [(0, BrowserAction.clipboardWrite url),
         (0, BrowserAction.setCopiedIdx (some i)),
         (700, BrowserAction.setCopiedIdx none),
         (120, BrowserAction.requestBlankTab)] := by
    unfold handleEnterTrace
    rw [hnode]
    simp only [hurl, if_neg hne, hint, if_pos, doCopyTrace]
    rfl
  refine ⟨htrace, ?_⟩
  rw [htrace]
  simp [isOpenUrl]

/-- Witness for C3: the sample `chrome://settings` bookmark at index `0`. -/
theorem c3_internal_confirm_witness :
    handleEnterTrace [BookmarkNode.mk "9" "Settings" (some "chrome://settings") none] 0
        = [(0, BrowserAction.clipboardWrite "chrome://settings"),
           (0, BrowserAction.setCopiedIdx (some 0)),
           (700, BrowserAction.setCopiedIdx none),
           (120, BrowserAction.requestBlankTab)]
    ∧ (handleEnterTrace
          [BookmarkNode.mk "9" "Settings" (some "chrome://settings") none] 0).all
        (fun a => !isOpenUrl a.2) = true :=
  c3_internal_confirm [BookmarkNode.mk "9" "Settings" (some "chrome://settings") none]
    0 (BookmarkNode.mk "9" "Settings" (some "chrome://settings") none)
    "chrome://settings" rfl rfl (by decide) (by decide)

/-- C10: `isInternalUrl` classifies an address as internal exactly when it
starts with the literal `chrome://` or `edge://` scheme; and when the
selected entry's address starts with neither, confirm requests exactly a
direct open of that address (delay `0`) and performs no clipboard write. -/
theorem c10_noninternal_direct_open (filtered : List BookmarkNode) (i : Nat)
    (node : BookmarkNode) (url : String)
    (hnode : filtered[i]? = some node) (hurl : node.url = some url)
    (hne : url ≠ "")
    (hchrome : jsStartsWith url "chrome://" = false)
    (hedge : jsStartsWith url "edge://" = false) :
    isInternalUrl (some url)
        = (jsStartsWith url "chrome://" || jsStartsWith url "edge://")
    ∧ handleEnterTrace filtered i = [(0, BrowserAction.openUrl url)]
    ∧ (handleEnterTrace filtered i).all (fun a => !isClipboardWrite a.2) = true := by
  have hint : isInternalUrl (some url) = false := by
    simp [isInternalUrl, hchrome, hedge]
  have htrace : handleEnterTrace filtered i = [(0, BrowserAction.openUrl url)] := by
    unfold handleEnterTrace
    rw [hnode]
    simp only [hurl, if_neg hne, hint]
    rfl
  refine ⟨rfl, htrace, ?_⟩
  rw [htrace]
  simp [isClipboardWrite]

/-- Witness for C10: the sample `https://a.example` bookmark at index `0`. -/
theorem c10_noninternal_direct_open_witness :
    isInternalUrl (some "https://a.example")
        = (jsStartsWith "https://a.example" "chrome://"
            || jsStartsWith "https://a.example" "edge://")
    ∧ handleEnterTrace [nodeA] 0 = [(0, BrowserAction.openUrl "https://a.example")]
    ∧ (handleEnterTrace [nodeA] 0).all (fun a => !isClipboardWrite a.2) = true :=
  c10_noninternal_direct_open [nodeA] 0 nodeA "https://a.example"
    rfl rfl (by decide) (by decide) (by decide)

theorem applyResetEffect_search (f : FuseFn) (a : String) (b : Nat)
    (s : ViewerState) : (applyResetEffect f a b s).search = s.search := by
  unfold applyResetEffect
  split <;> rfl

theorem applyResetEffect_bookmarks (f : FuseFn) (a : String) (b : Nat)
    (s : ViewerState) : (applyResetEffect f a b s).bookmarks = s.bookmarks := by
  unfold applyResetEffect
  split <;> rfl

theorem applyResetEffect_loading (f : FuseFn) (a : String) (b : Nat)
    (s : ViewerState) : (applyResetEffect f a b s).loading = s.loading := by
  unfold applyResetEffect
  split <;> rfl

theorem step_keyDown_eq (f : FuseFn) (k : Key) (s : ViewerState) :
    step f (Event.keyDown k) s = handleKeyDownState f k s := by
  unfold step stepCore applyResetEffect
  rw [if_pos ⟨handleKeyDownState_search f k s, by rw [filteredOf_handleKeyDownState]⟩]

theorem filteredOf_loadedState :
    filteredOf fuseAll loadedState = [nodeA, nodeB] := by
  simp [filteredOf, flatBookmarks, loadedState, rootNode, filterBookmarks,
    flattenBookmarks, nodeA, nodeB, truthyStr, BookmarkNode.children, fuseAll]

theorem filteredOf_loadedStateLast :
    filteredOf fuseAll loadedStateLast = [nodeA, nodeB] := by
  rw [filteredOf_congr fuseAll loadedStateLast loadedState rfl rfl]
  exact filteredOf_loadedState

theorem step_arrowDown_idx (f : FuseFn) (s : ViewerState) (n : Nat)
    (hn : (filteredOf f s).length = n) (hpos : 0 < n) :
    (step f (Event.keyDown Key.arrowDown) s).highlightedIdx
      = (s.highlightedIdx + 1) % n := by
  rw [step_keyDown_eq]
  unfold handleKeyDownState
  simp only [hn]
  rw [if_neg (Nat.pos_iff_ne_zero.mp hpos)]

theorem step_arrowUp_idx (f : FuseFn) (s : ViewerState) (n : Nat)
    (hn : (filteredOf f s).length = n) (hpos : 0 < n) :
    (step f (Event.keyDown Key.arrowUp) s).highlightedIdx
      = (((s.highlightedIdx : Int) - 1 + (n : Int)) % (n : Int)).toNat := by
  rw [step_keyDown_eq]
  unfold handleKeyDownState
  simp only [hn]
  rw [if_neg (Nat.pos_iff_ne_zero.mp hpos)]

/-- C2 fails on the code: with a filtered sequence of length `2` and the
selection at the last index `1`, an ArrowDown input wraps the selection
around to `0` instead of leaving it at `1`, and with the selection at index
`0` an ArrowUp input wraps it to `1` instead of leaving it at `0` — the
final code uses modulo wraparound, not a clamp. -/
theorem c2_no_wraparound_counterexample :
    (filteredOf fuseAll loadedStateLast).length = 2
    ∧ loadedStateLast.highlightedIdx = 1
    ∧ (step fuseAll (Event.keyDown Key.arrowDown) loadedStateLast).highlightedIdx ≠ 1
    ∧ (step fuseAll (Event.keyDown Key.arrowDown) loadedStateLast).highlightedIdx = 0
    ∧ loadedState.highlightedIdx = 0
    ∧ (step fuseAll (Event.keyDown Key.arrowUp) loadedState).highlightedIdx ≠ 0
    ∧ (step fuseAll (Event.keyDown Key.arrowUp) loadedState).highlightedIdx = 1 := by
  have hlenLast : (filteredOf fuseAll loadedStateLast).length = 2 := by
    rw [filteredOf_loadedStateLast]
    rfl
  have hlenFirst : (filteredOf fuseAll loadedState).length = 2 := by
    rw [filteredOf_loadedState]
    rfl
  have hdown : (step fuseAll (Event.keyDown Key.arrowDown) loadedStateLast).highlightedIdx
      = 0 := by
    rw [step_arrowDown_idx fuseAll loadedStateLast 2 hlenLast (by decide)]
    decide
  have hup : (step fuseAll (Event.keyDown Key.arrowUp) loadedState).highlightedIdx
      = 1 := by
    rw [step_arrowUp_idx fuseAll loadedState 2 hlenFirst (by decide)]
    decide
  refine ⟨hlenLast, rfl, ?_, hdown, rfl, ?_, hup⟩
  · rw [hdown]; decide
  · rw [hup]; decide

/-- C2 amended: with the modulo navigation of the code, a 'move forward'
(ArrowDown) input while the selection is at the last index `n-1` of a
non-empty filtered sequence wraps the selection around to `0`, and a 'move
backward' (ArrowUp) input while the selection is at index `0` wraps it to
the last index `n-1`. -/
theorem c2_arrows_wrap_around (f : FuseFn) (s₁ s₂ : ViewerState) (n : Nat)
    (hn₁ : (filteredOf f s₁).length = n) (hn₂ : (filteredOf f s₂).length = n)
    (hpos : 0 < n)
    (hlast : s₁.highlightedIdx = n - 1) (hzero : s₂.highlightedIdx = 0) :
    (step f (Event.keyDown Key.arrowDown) s₁).highlightedIdx = 0
    ∧ (step f (Event.keyDown Key.arrowUp) s₂).highlightedIdx = n - 1 := by
  constructor
  · rw [step_keyDown_eq]
    unfold handleKeyDownState
    simp only [hn₁, hlast]
    rw [if_neg (Nat.pos_iff_ne_zero.mp hpos)]
    show (n - 1 + 1) % n = 0
    rw [Nat.sub_add_cancel hpos, Nat.mod_self]
  · rw [step_keyDown_eq]
    unfold handleKeyDownState
    simp only [hn₂, hzero]
    rw [if_neg (Nat.pos_iff_ne_zero.mp hpos)]
    show (((0 : Int) - 1 + (n : Int)) % (n : Int)).toNat = n - 1
    have hmod : ((0 : Int) - 1 + (n : Int)) % (n : Int) = (n : Int) - 1 := by
      rw [show ((0 : Int) - 1 + (n : Int)) = (n : Int) - 1 by ring]
      exact Int.emod_eq_of_lt (by omega) (by omega)
    rw [hmod]
    omega

/-- Witness for the amended C2 at a concrete input: a filtered sequence of
length `2` with the selection at the last index wraps forward to `0` and,
from index `0`, wraps backward to `1`. -/
theorem c2_arrows_wrap_around_witness :
    (step fuseAll (Event.keyDown Key.arrowDown) loadedStateLast).highlightedIdx = 0
    ∧ (step fuseAll (Event.keyDown Key.arrowUp) loadedState).highlightedIdx = 2 - 1 :=
  c2_arrows_wrap_around fuseAll loadedStateLast loadedState 2
    (by rw [filteredOf_loadedStateLast]; rfl) (by rw [filteredOf_loadedState]; rfl)
    (by decide) rfl rfl

/-- C8 fails on the code: with two displayed entries and the selection at
index `0`, a pointer-hover event over the entry at index `1` does not set
the selection to `1` — the rendered list attaches no pointer-hover
listener, so the selection stays at `0`. -/
theorem c8_hover_counterexample :
    (filteredOf fuseAll loadedState).length = 2
    ∧ loadedState.highlightedIdx = 0
    ∧ (step fuseAll (Event.pointerHover 1) loadedState).highlightedIdx ≠ 1
    ∧ (step fuseAll (Event.pointerHover 1) loadedState).highlightedIdx = 0 := by
  have hstep : step fuseAll (Event.pointerHover 1) loadedState = loadedState := by
    unfold step stepCore applyResetEffect
    rw [if_pos ⟨rfl, rfl⟩]
  refine ⟨by rw [filteredOf_loadedState]; rfl, rfl, ?_, by rw [hstep]; rfl⟩
  rw [hstep]
  decide

/-- C8 amended: a pointer-hover event over an entry leaves the component
state (in particular the selection) unchanged, because `RenderBookmarks`
attaches no pointer-hover listener; the only per-entry pointer handler, the
copy icon's click, also leaves the selection unchanged (it only sets the
copied-icon index).  Selection changes come solely from keyboard navigation
and the reset effect. -/
theorem c8_hover_leaves_selection (f : FuseFn) (s : ViewerState) (i j : Nat)
    (u : String) :
    step f (Event.pointerHover i) s = s
    ∧ (step f (Event.copyClick u j) s).highlightedIdx = s.highlightedIdx := by
  constructor
  · unfold step stepCore applyResetEffect
    rw [if_pos ⟨rfl, rfl⟩]
  · unfold step stepCore applyResetEffect
    rw [if_pos ⟨rfl, by
      exact congrArg List.length (filteredOf_congr f _ s rfl rfl)⟩]

theorem run_preserves (f : FuseFn) (P : ViewerState → Prop)
    (hinit : P initState) (hstep : ∀ e s, P s → P (step f e s))
    (evs : List Event) : P (run f evs) := by
  have hfold : ∀ (l : List Event) (s : ViewerState), P s →
      P (l.foldl (fun s e => step f e s) s) := by
    intro l
    induction l with
    | nil => intro s hs; exact hs
    | cons e t ih => intro s hs; exact ih _ (hstep e s hs)
  exact hfold evs initState hinit

theorem selectionInv_of_eq_filtered (f : FuseFn) (s₁ s₂ : ViewerState)
    (hfe : filteredOf f s₁ = filteredOf f s₂)
    (hidx : s₁.highlightedIdx = s₂.highlightedIdx)
    (h : selectionInv f s₂) : selectionInv f s₁ := by
  unfold selectionInv at h ⊢
  rw [hfe, hidx]
  exact h

theorem selectionInv_fields (f : FuseFn) (s₁ s₂ : ViewerState)
    (hb : s₁.bookmarks = s₂.bookmarks) (hs : s₁.search = s₂.search)
    (hi : s₁.highlightedIdx = s₂.highlightedIdx)
    (h : selectionInv f s₂) : selectionInv f s₁ :=
  selectionInv_of_eq_filtered f s₁ s₂ (filteredOf_congr f s₁ s₂ hb hs) hi h

theorem selectionInv_set_idx (f : FuseFn) (s : ViewerState) (i : Nat)
    (hi : i < (filteredOf f s).length) :
    selectionInv f { s with highlightedIdx := i } := by
  right
  have hfe : filteredOf f { s with highlightedIdx := i } = filteredOf f s :=
    filteredOf_congr f { s with highlightedIdx := i } s rfl rfl
  rw [hfe]
  exact hi

theorem handleKeyDownState_idx_enter (f : FuseFn) (s : ViewerState) :
    (handleKeyDownState f Key.enter s).highlightedIdx = s.highlightedIdx := by
  unfold handleKeyDownState
  simp only
  repeat' split
  all_goals rfl

theorem handleKeyDownState_idx_other (f : FuseFn) (s : ViewerState) :
    (handleKeyDownState f Key.other s).highlightedIdx = s.highlightedIdx := by
  unfold handleKeyDownState
  simp only
  repeat' split
  all_goals rfl

theorem handleKeyDownState_selectionInv (f : FuseFn) (k : Key) (s : ViewerState)
    (h : selectionInv f s) : selectionInv f (handleKeyDownState f k s) := by
  by_cases hlen0 : (filteredOf f s).length = 0
  · have hred : handleKeyDownState f k s = s := by
      unfold handleKeyDownState
      simp only
      rw [if_pos hlen0]
    rw [hred]
    exact h
  · have hpos : 0 < (filteredOf f s).length := Nat.pos_of_ne_zero hlen0
    cases k with
    | arrowDown =>
        have hred : handleKeyDownState f Key.arrowDown s
            = { s with highlightedIdx :=
                  (s.highlightedIdx + 1) % (filteredOf f s).length } := by
          unfold handleKeyDownState
          simp only
          rw [if_neg hlen0]
        rw [hred]
        exact selectionInv_set_idx f s _ (Nat.mod_lt _ hpos)
    | arrowUp =>
        have hred : handleKeyDownState f Key.arrowUp s
            = { s with highlightedIdx :=
                  (((s.highlightedIdx : Int) - 1 + ((filteredOf f s).length : Int))
                    % ((filteredOf f s).length : Int)).toNat } := by
          unfold handleKeyDownState
          simp only
          rw [if_neg hlen0]
        rw [hred]
        apply selectionInv_set_idx f s
        have hne : ((filteredOf f s).length : Int) ≠ 0 := by
          exact_mod_cast hlen0
        have h1 : 0 ≤ ((s.highlightedIdx : Int) - 1 + ((filteredOf f s).length : Int))
            % ((filteredOf f s).length : Int) := Int.emod_nonneg _ hne
        have h2 : ((s.highlightedIdx : Int) - 1 + ((filteredOf f s).length : Int))
            % ((filteredOf f s).length : Int) < ((filteredOf f s).length : Int) :=
          Int.emod_lt_of_pos _ (by exact_mod_cast hpos)
        omega
    | enter =>
        exact selectionInv_fields f (handleKeyDownState f Key.enter s) s
          (handleKeyDownState_bookmarks f Key.enter s)
          (handleKeyDownState_search f Key.enter s)
          (handleKeyDownState_idx_enter f s) h
    | other =>
        exact selectionInv_fields f (handleKeyDownState f Key.other s) s
          (handleKeyDownState_bookmarks f Key.other s)
          (handleKeyDownState_search f Key.other s)
          (handleKeyDownState_idx_other f s) h

theorem stepCore_selectionInv (f : FuseFn) (e : Event) (s : ViewerState)
    (h : selectionInv f s)
    (hsearch : (stepCore f e s).search = s.search)
    (hlen : (filteredOf f (stepCore f e s)).length = (filteredOf f s).length) :
    selectionInv f (stepCore f e s) := by
  cases e with
  | queryEdit q =>
      have hq : q = s.search := hsearch
      subst hq
      exact h
  | bookmarksLoaded bs =>
      have hred : stepCore f (Event.bookmarksLoaded bs) s
          = if s.loading then { s with bookmarks := bs, loading := false } else s := rfl
      rw [hred] at hlen ⊢
      by_cases hld : s.loading = true
      · rw [if_pos hld] at hlen ⊢
        rcases h with h | h
        · left
          have h0 : (filteredOf f { s with bookmarks := bs, loading := false }).length = 0 := by
            rw [hlen, h]
            rfl
          exact List.length_eq_zero.mp h0
        · right
          rw [hlen]
          exact h
      · rw [if_neg hld] at hlen ⊢
        exact h
  | loadUnavailable =>
      have hred : stepCore f Event.loadUnavailable s
          = if s.loading then { s with loading := false } else s := rfl
      rw [hred]
      by_cases hld : s.loading = true
      · rw [if_pos hld]
        exact selectionInv_fields f { s with loading := false } s rfl rfl rfl h
      · rw [if_neg hld]
        exact h
  | keyDown k => exact handleKeyDownState_selectionInv f k s h
  | copyClick u i =>
      exact selectionInv_fields f { s with copiedIdx := some i } s rfl rfl rfl h
  | pointerHover i => exact h
  | copyTimerFire =>
      exact selectionInv_fields f { s with copiedIdx := none } s rfl rfl rfl h

theorem step_selectionInv (f : FuseFn) (e : Event) (s : ViewerState)
    (h : selectionInv f s) : selectionInv f (step f e s) := by
  unfold step applyResetEffect
  split
  case isTrue hcond => exact stepCore_selectionInv f e s h hcond.1 hcond.2
  case isFalse =>
    have hfe : filteredOf f { stepCore f e s with highlightedIdx := 0 }
        = filteredOf f (stepCore f e s) :=
      filteredOf_congr f _ _ rfl rfl
    rcases Nat.eq_zero_or_pos (filteredOf f (stepCore f e s)).length with h0 | hpos
    · left
      rw [hfe]
      exact List.length_eq_zero.mp h0
    · right
      rw [hfe]
      exact hpos

/-- C5: in every reachable state of the component, the selection is either
over an empty filtered sequence (no selection possible) or an index within
`[0, length-1]` of the current filtered sequence; in particular it never
retains a stale out-of-range index after the filtered sequence shrinks. -/
theorem c5_selection_always_in_range (f : FuseFn) (evs : List Event) :
    filteredOf f (run f evs) = []
    ∨ (run f evs).highlightedIdx < (filteredOf f (run f evs)).length :=
  run_preserves f (selectionInv f) (Or.inl rfl)
    (fun e s h => step_selectionInv f e s h) evs

theorem step_loadInv (f : FuseFn) (e : Event) (s : ViewerState)
    (h : s.loading = true → s.bookmarks = []) :
    (step f e s).loading = true → (step f e s).bookmarks = [] := by
  unfold step
  rw [applyResetEffect_loading, applyResetEffect_bookmarks]
  cases e with
  | queryEdit q => exact h
  | bookmarksLoaded bs =>
      show (if s.loading then { s with bookmarks := bs, loading := false } else s).loading = true →
        (if s.loading then { s with bookmarks := bs, loading := false } else s).bookmarks = []
      by_cases hld : s.loading = true
      · rw [if_pos hld]
        intro hl
        exact absurd hl Bool.false_ne_true
      · rw [if_neg hld]
        exact h
  | loadUnavailable =>
      show (if s.loading then { s with loading := false } else s).loading = true →
        (if s.loading then { s with loading := false } else s).bookmarks = []
      by_cases hld : s.loading = true
      · rw [if_pos hld]
        intro hl
        exact absurd hl Bool.false_ne_true
      · rw [if_neg hld]
        exact h
  | keyDown k =>
      show (handleKeyDownState f k s).loading = true
        → (handleKeyDownState f k s).bookmarks = []
      rw [handleKeyDownState_loading, handleKeyDownState_bookmarks]
      exact h
  | copyClick u i => exact h
  | pointerHover i => exact h
  | copyTimerFire => exact h

theorem run_loadInv (f : FuseFn) (evs : List Event) :
    (run f evs).loading = true → (run f evs).bookmarks = [] :=
  run_preserves f (fun s => s.loading = true → s.bookmarks = [])
    (fun _ => rfl) (fun e s h => step_loadInv f e s h) evs

/-- C6: in every reachable state, an edit of the query text (a `queryEdit`
with a new text) resets the selection to index `0` before any subsequent
input is processed, and any event that changes the filtered sequence (query
edited or the one-shot bookmark load) resets the selection to the first
position — assuming the external fuzzy-search capability only returns
items of the collection it indexed. -/
theorem c6_filtered_change_resets_selection (f : FuseFn)
    (hf : ∀ ns opts q x, x ∈ f ns opts q → x ∈ ns)
    (evs : List Event) (e : Event)
    (h : (match e with
          | Event.queryEdit q => q ≠ (run f evs).search
          | _ => False)
         ∨ filteredOf f (step f e (run f evs)) ≠ filteredOf f (run f evs)) :
    (step f e (run f evs)).highlightedIdx = 0 := by
  set s := run f evs with hs
  have hload : s.loading = true → s.bookmarks = [] := run_loadInv f evs
  by_cases hcond : (stepCore f e s).search = s.search
      ∧ (filteredOf f (stepCore f e s)).length = (filteredOf f s).length
  case neg =>
    unfold step applyResetEffect
    rw [if_neg hcond]
  case pos =>
    exfalso
    have hstep_eq : step f e s = stepCore f e s := by
      unfold step applyResetEffect
      rw [if_pos hcond]
    rcases h with hq | hne
    · cases e with
      | queryEdit q => exact hq hcond.1
      | bookmarksLoaded bs => exact hq
      | loadUnavailable => exact hq
      | keyDown k => exact hq
      | copyClick u i => exact hq
      | pointerHover i => exact hq
      | copyTimerFire => exact hq
    · apply hne
      rw [hstep_eq]
      cases e with
      | queryEdit q =>
          have hq : q = s.search := hcond.1
          subst hq
          rfl
      | bookmarksLoaded bs =>
          cases hld : s.loading with
          | false => simp [stepCore, hld]
          | true =>
              have hbook : s.bookmarks = [] := hload hld
              have hflat : flatBookmarks s = [] := by
                unfold flatBookmarks
                rw [hbook]
              have hold : filteredOf f s = [] := by
                unfold filteredOf
                rw [hflat]
                exact filterBookmarks_nil f hf s.search
              have hnew : filteredOf f (stepCore f (Event.bookmarksLoaded bs) s) = [] :=
                List.length_eq_zero.mp (by rw [hcond.2, hold]; rfl)
              rw [hnew, hold]
      | loadUnavailable =>
          have hred : stepCore f Event.loadUnavailable s
              = if s.loading then { s with loading := false } else s := rfl
          rw [hred]
          by_cases hld : s.loading = true
          · rw [if_pos hld]
            exact filteredOf_congr f { s with loading := false } s rfl rfl
          · rw [if_neg hld]
      | keyDown k => exact filteredOf_handleKeyDownState f k s
      | copyClick u i => exact filteredOf_congr f _ s rfl rfl
      | pointerHover i => rfl
      | copyTimerFire => exact filteredOf_congr f _ s rfl rfl

/-- Witness for C6 at a concrete input: from the initial state, editing the
query text to `"ab"` resets the selection to `0`. -/
theorem c6_filtered_change_resets_selection_witness :
    (step fuseAll (Event.queryEdit "ab") (run fuseAll [])).highlightedIdx = 0 :=
  c6_filtered_change_resets_selection fuseAll (fun _ _ _ _ hx => hx) []
    (Event.queryEdit "ab") (Or.inl (by decide))
